import Mathlib

/-!
Verification development for `Sample_Accident_Program.py`.

The Python program keeps an in-memory list of accident records (dicts with
integer and string fields), searches them by case-insensitive substring
(`search_accidents`), computes the most frequent value of a field with
`collections.Counter` (`find_most_frequent_by_key`), serializes the fixed
8-record dataset to a JSON file (`create_dummy_json`) and reads it back,
analyzing and finally deleting the file (`read_and_analyze_json_file`).

The embedding below translates those functions into Lean.  Records are
association lists from field names to scalar values (the data model of the
program: integer ids and text fields).  Machine-level aspects (file handles,
printing) are modelled by explicit state passing: the file system is the
optional content of the single backing file.
-/

set_option maxHeartbeats 1000000
set_option maxRecDepth 65536

namespace Accident

/-- Scalar field values an accident record can hold: Python `None`,
integers, and strings.  These are the value shapes of the program's data
model (§3 of the spec: integer identifier plus text fields). -/
inductive Value where
  | vnull : Value
  | vint : Int → Value
  | vstr : String → Value
deriving DecidableEq

open Value

/-- A record is an ordered mapping from field names to values, as a Python
dict with insertion order. -/
abbrev Record : Type := List (String × Value)

/-- Python `record.get(key)` without default: the value of the first
binding of `key`, or `none` when the key is absent. -/
def rget : Record → String → Option Value
  | [], _ => none
  | (k₀, v) :: t, k => if k₀ = k then some v else rget t k

/-- Python `record.get(key, d)`: lookup with a default. -/
def rgetD (r : Record) (k : String) (d : Value) : Value :=
  (rget r k).getD d

/-- Python `key in record` for a dict: key membership. -/
def hasKeyB (r : Record) (k : String) : Bool :=
  (rget r k).isSome

/-- ASCII lower-casing of one character, modelling Python `str.lower` on
the alphabet the program uses. -/
def lowerChar (c : Char) : Char :=
  if 'A' ≤ c ∧ c ≤ 'Z' then Char.ofNat (c.toNat + 32) else c

/-- Lower-casing of a string, character by character. -/
def lowerStr (s : String) : String :=
  String.mk (s.data.map lowerChar)

/-- Python `str()` applied to a record value: `None` prints as `"None"`,
integers in decimal, strings are themselves. -/
def pyStr : Value → String
  | vnull => "None"
  | vint n => toString n
  | vstr s => s

/-- Boolean test that `p` is a prefix of `l`, character lists. -/
def isPrefixB : List Char → List Char → Bool
  | [], _ => true
  | _ :: _, [] => false
  | a :: as, b :: bs => a == b && isPrefixB as bs

/-- Scanning implementation of the Python `in` substring operator:
`containsAux needle hay` checks whether `needle` occurs contiguously
inside `hay`. -/
def containsAux (needle : List Char) : List Char → Bool
  | [] => needle.isEmpty
  | c :: t => isPrefixB needle (c :: t) || containsAux needle t

/-- Python `needle in hay` on strings. -/
def containsB (hay needle : String) : Bool :=
  containsAux needle.data hay.data

/-- Translation of `search_accidents(data_list, search_key, search_value)`
(source lines 32-60): if the list is empty or the first record lacks the
key, return the empty list; otherwise keep, in order, the records whose
value for the key (via `record.get(search_key, '')`), string-coerced and
lower-cased, contains the lower-cased string form of the query. -/
def search_accidents (data_list : List Record) (search_key : String)
    (search_value : Value) : List Record :=
  match data_list with
  | [] => []
  | first :: _ =>
    if hasKeyB first search_key then
      data_list.filter (fun record =>
        containsB (lowerStr (pyStr (rgetD record search_key (vstr ""))))
          (lowerStr (pyStr search_value)))
    else []

/-- The list comprehension of source line 75: the values of `key` over the
records, skipping records where `record.get(key)` is `None` (key absent or
value `None`). -/
def extractItems (data_list : List Record) (key : String) : List Value :=
  data_list.filterMap (fun record =>
    match rget record key with
    | some v => if v = vnull then none else some v
    | none => none)

/-- Fueled deduplication keeping the first occurrence of each element, in
order.  With fuel at least the list length this computes the key sequence
of `collections.Counter(items)`: Python dicts iterate keys in first
insertion order. -/
def dedupFuel {α : Type} [DecidableEq α] : Nat → List α → List α
  | 0, _ => []
  | _, [] => []
  | n + 1, a :: t => a :: dedupFuel n (t.filter (fun x => x ≠ a))

/-- The distinct elements of a list, first occurrences first. -/
def dedupFirst {α : Type} [DecidableEq α] (l : List α) : List α :=
  dedupFuel l.length l

/-- Number of occurrences of `a` in `l`, the multiplicity that
`Counter(items)[a]` reports. -/
def countOcc {α : Type} [DecidableEq α] (a : α) : List α → Nat
  | [] => 0
  | b :: t => (if b = a then 1 else 0) + countOcc a t

/-- The `(value, multiplicity)` pairs of `Counter(items).items()`, in first
insertion order of the keys. -/
def countsList (items : List Value) : List (Value × Nat) :=
  (dedupFirst items).map (fun v => (v, countOcc v items))

/-- The selection performed by `Counter.most_common(1)`: CPython routes
`most_common(1)` through `heapq.nlargest(1, items, key=itemgetter(1))`,
which is `max` over the pairs by count and hence returns the first pair
attaining the maximal count.  On an empty list it yields nothing. -/
def pickMostCommon {α : Type} : List (α × Nat) → Option (α × Nat)
  | [] => none
  | p :: t =>
    match pickMostCommon t with
    | none => some p
    | some q => some (if q.2 > p.2 then q else p)

/-- Translation of `find_most_frequent_by_key(data_list, key)` (source
lines 62-89): `(None, 0)` on an empty list, `(None, 0)` when no record has
a non-`None` value for the key, otherwise the most common extracted value
with its count. -/
def find_most_frequent_by_key (data_list : List Record) (key : String) :
    Option Value × Nat :=
  if data_list.isEmpty then (none, 0)
  else if (extractItems data_list key).isEmpty then (none, 0)
  else
    match pickMostCommon (countsList (extractItems data_list key)) with
    | some p => (some p.1, p.2)
    | none => (none, 0)

/-- The fixed dataset of `create_dummy_json` (source lines 12-21),
record 1. -/
def rec1 : Record :=
  [("id", vint 1), ("car", vstr "Toyota Camry"),
   ("location", vstr "Main St, Anytown"), ("city", vstr "Anytown"),
   ("date_time", vstr "2024-10-25 08:30")]

/-- Fixed dataset, record 2. -/
def rec2 : Record :=
  [("id", vint 2), ("car", vstr "Honda Civic"),
   ("location", vstr "Highway 101"), ("city", vstr "Springfield"),
   ("date_time", vstr "2024-10-25 15:45")]

/-- Fixed dataset, record 3. -/
def rec3 : Record :=
  [("id", vint 3), ("car", vstr "Ford F-150"),
   ("location", vstr "Industrial Park Blvd"), ("city", vstr "Anytown"),
   ("date_time", vstr "2024-10-26 10:00")]

/-- Fixed dataset, record 4. -/
def rec4 : Record :=
  [("id", vint 4), ("car", vstr "Toyota Camry"),
   ("location", vstr "Downtown Loop"), ("city", vstr "Metropolis"),
   ("date_time", vstr "2024-10-26 19:20")]

/-- Fixed dataset, record 5. -/
def rec5 : Record :=
  [("id", vint 5), ("car", vstr "Tesla Model 3"),
   ("location", vstr "Residential Zone A"), ("city", vstr "Springfield"),
   ("date_time", vstr "2024-10-27 06:15")]

/-- Fixed dataset, record 6. -/
def rec6 : Record :=
  [("id", vint 6), ("car", vstr "Honda Civic"),
   ("location", vstr "Main St, Anytown"), ("city", vstr "Anytown"),
   ("date_time", vstr "2024-10-27 12:00")]

/-- Fixed dataset, record 7. -/
def rec7 : Record :=
  [("id", vint 7), ("car", vstr "Toyota Camry"),
   ("location", vstr "Highway 101"), ("city", vstr "Springfield"),
   ("date_time", vstr "2024-10-27 17:50")]

/-- Fixed dataset, record 8. -/
def rec8 : Record :=
  [("id", vint 8), ("car", vstr "Ford F-150"),
   ("location", vstr "Ocean View Drive"), ("city", vstr "Anytown"),
   ("date_time", vstr "2024-10-28 14:00")]

/-- The list of 8 records the Generator produces. -/
def dummyData : List Record :=
  [rec1, rec2, rec3, rec4, rec5, rec6, rec7, rec8]

/-!  The JSON layer: the shapes `json.dump` writes and `json.load` reads
back.  The program only ever produces null, integers, strings, arrays and
objects, and its parser consumes the same fragment. -/

/-- JSON values as produced by `json.dump` and consumed by `json.load`:
null, integers, strings, arrays, and objects with ordered fields. -/
inductive JValue where
  | jnull : JValue
  | jint : Int → JValue
  | jstr : String → JValue
  | jarr : List JValue → JValue
  | jobj : List (String × JValue) → JValue

/-- Injection of a record scalar into JSON. -/
def encodeValue : Value → JValue
  | vnull => .jnull
  | vint n => .jint n
  | vstr s => .jstr s

/-- A record as the JSON object `json.dump` writes for it, fields in
insertion order. -/
def encodeRecord (r : Record) : JValue :=
  .jobj (r.map (fun p => (p.1, encodeValue p.2)))

/-- A dataset as the JSON array `json.dump` writes for it. -/
def encodeData (data : List Record) : JValue :=
  .jarr (data.map encodeRecord)

/-- Partial inverse of `encodeValue`: only scalars decode to record
values. -/
def decodeScalar : JValue → Option Value
  | .jnull => some vnull
  | .jint n => some (vint n)
  | .jstr s => some (vstr s)
  | .jarr _ => none
  | .jobj _ => none

/-- Decode the fields of a JSON object into a record, requiring every
field value to be scalar. -/
def decodeFields : List (String × JValue) → Option Record
  | [] => some []
  | (k, jv) :: t =>
    match decodeScalar jv, decodeFields t with
    | some v, some r => some ((k, v) :: r)
    | _, _ => none

/-- Decode a list of JSON values into records, requiring every element to
be an object of scalars. -/
def decodeRecords : List JValue → Option (List Record)
  | [] => some []
  | .jobj fs :: t =>
    match decodeFields fs, decodeRecords t with
    | some r, some rs => some (r :: rs)
    | _, _ => none
  | _ :: _ => none

/-- Decode a top-level JSON value into a dataset: it must be an array of
records. -/
def decodeTop : JValue → Option (List Record)
  | .jarr l => decodeRecords l
  | _ => none

/-- A run of `n` spaces, the indentation unit of `json.dump(..., indent=4)`. -/
def spaces (n : Nat) : String :=
  String.mk (List.replicate n ' ')

/-- Serializer for `json.dump(data, jsonfile, indent=4)`: containers put
each item on its own line, indented four further spaces, keys separated
from values by a colon and a space.  The data contains no characters that
JSON escapes.  `fuel` bounds the nesting depth; the recursion is
structural on it. -/
def dumpsVal : Nat → Nat → JValue → String
  | 0, _, _ => ""
  | fuel + 1, lvl, v =>
    match v with
    | .jnull => "null"
    | .jint n => toString n
    | .jstr s => "\"" ++ s ++ "\""
    | .jarr [] => "[]"
    | .jarr (x :: xs) =>
        "[\n" ++
        String.intercalate ",\n"
          ((x :: xs).map (fun e => spaces (lvl + 4) ++ dumpsVal fuel (lvl + 4) e)) ++
        "\n" ++ spaces lvl ++ "]"
    | .jobj [] => "\x7b\x7d"
    | .jobj (f :: fs) =>
        "\x7b\n" ++
        String.intercalate ",\n"
          ((f :: fs).map (fun p =>
            spaces (lvl + 4) ++ "\"" ++ p.1 ++ "\": " ++ dumpsVal fuel (lvl + 4) p.2)) ++
        "\n" ++ spaces lvl ++ "\x7d"

/-- Top-level serialization, nesting depth of the program's data is at
most 3. -/
def dumps (v : JValue) : String :=
  dumpsVal 8 0 v

/-- Drop leading JSON whitespace. -/
def skipWs : List Char → List Char
  | [] => []
  | c :: t => if c = ' ' ∨ c = '\n' ∨ c = '\t' ∨ c = '\r' then skipWs t else c :: t

/-- Consume the body of a string literal after the opening quote,
accumulating characters until the closing quote; the two JSON escapes for
quote and backslash are understood. -/
def parseStringAux : List Char → List Char → Option (String × List Char)
  | _, [] => none
  | acc, '"' :: t => some (String.mk acc.reverse, t)
  | acc, '\\' :: c :: t =>
    if c = '"' ∨ c = '\\' then parseStringAux (c :: acc) t else none
  | _, ['\\'] => none
  | acc, c :: t => parseStringAux (c :: acc) t

/-- Consume a run of decimal digits, accumulating their value. -/
def parseDigitsAux : Nat → List Char → Nat × List Char
  | acc, [] => (acc, [])
  | acc, c :: t =>
    if c.isDigit then parseDigitsAux (acc * 10 + (c.toNat - 48)) t
    else (acc, c :: t)

/-- Parse an integer literal: optional minus sign then at least one
digit. -/
def parseInteger : List Char → Option (Int × List Char)
  | [] => none
  | '-' :: t =>
    match t with
    | c :: _ =>
      if c.isDigit then
        let (n, rest) := parseDigitsAux 0 t
        some (-(n : Int), rest)
      else none
    | [] => none
  | c :: t =>
    if c.isDigit then
      let (n, rest) := parseDigitsAux 0 (c :: t)
      some ((n : Int), rest)
    else none

/-- Parse the items of an array after its opening bracket (first item
already expected), given a parser for one value; the fuel bounds the item
count. -/
def parseItems (pv : List Char → Option (JValue × List Char)) :
    Nat → List Char → Option (List JValue × List Char)
  | 0, _ => none
  | n + 1, input => do
    let (v, rest) ← pv (skipWs input)
    match skipWs rest with
    | ',' :: r =>
      let (vs, r₂) ← parseItems pv n r
      pure (v :: vs, r₂)
    | ']' :: r => pure ([v], r)
    | _ => none

/-- Parse the fields of an object after its opening brace (first field
already expected), given a parser for one value. -/
def parseFields (pv : List Char → Option (JValue × List Char)) :
    Nat → List Char → Option (List (String × JValue) × List Char)
  | 0, _ => none
  | n + 1, input => do
    match skipWs input with
    | '"' :: r₀ => do
      let (k, r₁) ← parseStringAux [] r₀
      match skipWs r₁ with
      | ':' :: r₂ => do
        let (v, r₃) ← pv (skipWs r₂)
        match skipWs r₃ with
        | ',' :: r₄ =>
          let (fs, r₅) ← parseFields pv n r₄
          pure ((k, v) :: fs, r₅)
        | '\x7d' :: r₄ => pure ([(k, v)], r₄)
        | _ => none
      | _ => none
    | _ => none

/-- Parse one JSON value of the fragment the program uses (null, integer,
string, array, object); the fuel bounds the nesting depth, and each
container additionally spends it per item. -/
def parseVal : Nat → List Char → Option (JValue × List Char)
  | 0, _ => none
  | fuel + 1, input =>
    match skipWs input with
    | [] => none
    | 'n' :: 'u' :: 'l' :: 'l' :: rest => some (.jnull, rest)
    | '"' :: rest =>
      match parseStringAux [] rest with
      | some (s, r) => some (.jstr s, r)
      | none => none
    | '[' :: rest =>
      match skipWs rest with
      | ']' :: r => some (.jarr [], r)
      | _ =>
        match parseItems (fun inp => parseVal fuel inp) fuel rest with
        | some (vs, r) => some (.jarr vs, r)
        | none => none
    | '\x7b' :: rest =>
      match skipWs rest with
      | '\x7d' :: r => some (.jobj [], r)
      | _ =>
        match parseFields (fun inp => parseVal fuel inp) fuel rest with
        | some (fs, r) => some (.jobj fs, r)
        | none => none
    | c :: rest =>
      match parseInteger (c :: rest) with
      | some (n, r) => some (.jint n, r)
      | none => none

/-- Model of `json.load`: parse one value and require only whitespace
after it. -/
def jsonParse (s : String) : Option JValue :=
  match parseVal (s.length + 1) s.data with
  | some (v, rest) => if (skipWs rest).isEmpty then some v else none
  | none => none

/-!  The orchestration.  The file system is the optional content of the
single backing file; printing is abstracted into an outcome value. -/

/-- What a run of the Analyzer reports (source lines 93-145): the early
return when the file does not exist, the `json.JSONDecodeError` handler,
the non-list warning, the catch-all handler for anything raised
mid-analysis, or the completed analyses (the `city` search results and the
two most-frequent queries). -/
inductive Outcome where
  | fileNotFound : Outcome
  | parseError : Outcome
  | shapeError : Outcome
  | unexpectedError : Outcome
  | analyzed : List Record → Option Value × Nat → Option Value × Nat → Outcome

/-- The body of the `try` block (source lines 104-132) applied to the file
content: parse, check the parsed value is a list, then run the three
demonstrations.  Elements that are not objects of scalars, and search
results lacking the `id`, `car` or `date_time` fields the report prints,
make the Python loop raise and land in the catch-all handler; they are
mapped to the catch-all outcome. -/
def analyzeContent (content : String) : Outcome :=
  match jsonParse content with
  | none => .parseError
  | some (.jarr elems) =>
    match decodeRecords elems with
    | some records =>
      let res := search_accidents records "city" (vstr "Anytown")
      if res.all (fun r => hasKeyB r "id" && hasKeyB r "car" && hasKeyB r "date_time")
      then .analyzed res (find_most_frequent_by_key records "city")
             (find_most_frequent_by_key records "car")
      else .unexpectedError
    | none => .unexpectedError
  | some _ => .shapeError

/-- Translation of `read_and_analyze_json_file(filename)` over the file
state.  When the file does not exist the function returns before the
`try`, with no cleanup to do; on every path through the `try` the
`finally` clause removes the file, so the resulting state is `none`. -/
def read_and_analyze_json_file (fs : Option String) : Outcome × Option String :=
  match fs with
  | none => (.fileNotFound, fs)
  | some content => (analyzeContent content, none)

/-- Translation of `create_dummy_json(filename)` over the file state:
writing the serialized fixed dataset replaces the file content; an
`IOError` is caught and reported, leaving the file state as it was. -/
def create_dummy_json (writeOk : Bool) (fs : Option String) : Option String :=
  if writeOk then some (dumps (encodeData dummyData)) else fs

/-- The `__main__` sequence (source lines 148-155): generate, then analyze
and clean up. -/
def main_run (fs₀ : Option String) (writeOk : Bool) : Outcome × Option String :=
  read_and_analyze_json_file (create_dummy_json writeOk fs₀)

/-- Index of the first occurrence of `a` in a list (the list length when
absent): the position of the record-order first occurrence used to state
the tie-breaking property. -/
def idxOfV {α : Type} [DecidableEq α] (a : α) : List α → Nat
  | [] => 0
  | b :: t => if b = a then 0 else idxOfV a t + 1

/-- The search operation exactly as the specification claim words it: the
order-preserving sub-sequence of the records whose value for the field,
string-coerced and lower-cased, contains the lower-cased string form of
the query as a contiguous substring.  A record with no value for the field
is not part of the described sub-sequence.  The guard on the first record
is the claim's hypothesis, kept here so the function is total. -/
def searchSpec (data : List Record) (k : String) (v : Value) : List Record :=
  match data with
  | [] => []
  | first :: _ =>
    if hasKeyB first k then
      data.filter (fun record =>
        match rget record k with
        | some w => decide ((lowerStr (pyStr v)).data <:+: (lowerStr (pyStr w)).data)
        | none => false)
    else []

/-!  Helper lemmas about the embedded operations. -/

/-- The scanning prefix test agrees with the prefix relation. -/
lemma isPrefixB_eq_true_iff : ∀ p l : List Char, isPrefixB p l = true ↔ p <+: l := by
  intro p
  induction p with
  | nil => intro l; simp [isPrefixB, List.nil_prefix]
  | cons a as ih =>
    intro l
    cases l with
    | nil => simp [isPrefixB, List.prefix_nil]
    | cons b bs => simp [isPrefixB, List.cons_prefix_cons, ih bs]

/-- The scanning substring test agrees with the contiguous-substring
(infix) relation. -/
lemma containsAux_eq_true_iff : ∀ n h : List Char, containsAux n h = true ↔ n <:+: h := by
  intro n h
  induction h with
  | nil => simp [containsAux, List.infix_nil, List.isEmpty_iff]
  | cons c t ih =>
    rw [containsAux, List.infix_cons_iff, Bool.or_eq_true, isPrefixB_eq_true_iff, ih]

/-- The Python `in` test on strings, as a decided infix proposition. -/
lemma containsB_eq_decide (hay needle : String) :
    containsB hay needle = decide (needle.data <:+: hay.data) := by
  rw [containsB]
  by_cases h : needle.data <:+: hay.data
  · rw [(containsAux_eq_true_iff _ _).mpr h, decide_eq_true h]
  · rw [decide_eq_false h, ← Bool.not_eq_true, containsAux_eq_true_iff]
    exact h

/-- The empty needle occurs in every haystack. -/
lemma containsAux_nil : ∀ h : List Char, containsAux [] h = true := by
  intro h
  cases h with
  | nil => rfl
  | cons c t => rw [containsAux, isPrefixB, Bool.true_or]

/-- A string is empty exactly when its character list is. -/
lemma string_eq_empty_iff (s : String) : s = "" ↔ s.data = [] := by
  constructor
  · intro h; rw [h]
  · intro h
    cases s with
    | mk l =>
      have : l = [] := h
      rw [this]

/-- On a non-empty list whose first record has the key, the search is the
filter of the whole list by the substring test. -/
lemma search_cons_eq (r₀ : Record) (t : List Record) (k : String) (v : Value)
    (hk : hasKeyB r₀ k = true) :
    search_accidents (r₀ :: t) k v = (r₀ :: t).filter (fun record =>
      containsB (lowerStr (pyStr (rgetD record k (vstr ""))))
        (lowerStr (pyStr v))) := by
  rw [search_accidents, if_pos hk]

/-- Membership in the fueled dedup, given enough fuel. -/
lemma mem_dedupFuel {α : Type} [DecidableEq α] :
    ∀ (n : Nat) (l : List α), l.length ≤ n → ∀ a, (a ∈ dedupFuel n l ↔ a ∈ l) := by
  intro n
  induction n with
  | zero =>
    intro l hl a
    rw [List.length_eq_zero.mp (Nat.le_zero.mp hl)]
    rfl
  | succ n ih =>
    intro l hl a
    cases l with
    | nil => rfl
    | cons b t =>
      rw [dedupFuel, List.mem_cons, List.mem_cons,
        ih (t.filter (fun x => x ≠ b))
          (le_trans (List.length_filter_le _ _) (Nat.le_of_succ_le_succ hl)) a,
        List.mem_filter]
      by_cases hab : a = b
      · simp [hab]
      · simp [hab]

/-- Membership in the dedup of a list. -/
lemma mem_dedupFirst {α : Type} [DecidableEq α] (l : List α) (a : α) :
    a ∈ dedupFirst l ↔ a ∈ l :=
  mem_dedupFuel l.length l (Nat.le_refl _) a

/-- The dedup of a list is empty exactly when the list is. -/
lemma dedupFirst_eq_nil {α : Type} [DecidableEq α] (l : List α) :
    dedupFirst l = [] ↔ l = [] := by
  cases l with
  | nil => simp [dedupFirst, dedupFuel]
  | cons a t => simp [dedupFirst, dedupFuel]

/-- Absent elements have multiplicity zero. -/
lemma countOcc_eq_zero {α : Type} [DecidableEq α] (a : α) :
    ∀ l : List α, a ∉ l → countOcc a l = 0 := by
  intro l
  induction l with
  | nil => intro _; rfl
  | cons b t ih =>
    intro h
    rw [List.mem_cons, not_or] at h
    rw [countOcc, if_neg (fun e => h.1 e.symm), ih h.2]

/-- The selection of `most_common(1)` yields nothing exactly on the empty
counter. -/
lemma pickMostCommon_eq_none_iff {α : Type} (L : List (α × Nat)) :
    pickMostCommon L = none ↔ L = [] := by
  cases L with
  | nil => simp [pickMostCommon]
  | cons p t =>
    rw [pickMostCommon]
    cases pickMostCommon t with
    | none => simp
    | some q => simp


/-- Index of the head element. -/
lemma idxOfV_cons_self {α : Type} [DecidableEq α] (a : α) (t : List α) :
    idxOfV a (a :: t) = 0 := by
  rw [idxOfV, if_pos rfl]

/-- Index past a non-matching head element. -/
lemma idxOfV_cons_ne {α : Type} [DecidableEq α] (x b : α) (t : List α)
    (h : b ≠ x) : idxOfV x (b :: t) = idxOfV x t + 1 := by
  rw [idxOfV, if_neg h]

/-- Whatever `most_common(1)` selects has maximal count. -/
lemma pickMostCommon_max {α : Type} :
    ∀ (L : List (α × Nat)) (p : α × Nat), pickMostCommon L = some p →
      ∀ q ∈ L, q.2 ≤ p.2 := by
  intro L
  induction L with
  | nil => intro p h; simp [pickMostCommon] at h
  | cons a t ih =>
    intro p h q hq
    rw [pickMostCommon] at h
    cases ht : pickMostCommon t with
    | none =>
      rw [ht] at h
      simp only [Option.some.injEq] at h
      have hte : t = [] := (pickMostCommon_eq_none_iff t).mp ht
      subst hte
      rw [List.mem_singleton] at hq
      rw [hq, ← h]
    | some m =>
      rw [ht] at h
      simp only [Option.some.injEq] at h
      rcases List.mem_cons.mp hq with hqa | hqt
      · by_cases hgt : m.2 > a.2
        · rw [if_pos hgt] at h
          rw [hqa, ← h]
          exact Nat.le_of_lt hgt
        · rw [if_neg hgt] at h
          rw [hqa, ← h]
      · have hqm := ih m ht q hqt
        by_cases hgt : m.2 > a.2
        · rw [if_pos hgt] at h
          rw [← h]
          exact hqm
        · rw [if_neg hgt] at h
          rw [← h]
          omega

/-- The selection of `most_common(1)` is the first entry attaining the
maximal count: every entry before it in the counter counts strictly
less. -/
lemma pickMostCommon_split {α : Type} :
    ∀ (L : List (α × Nat)) (p : α × Nat), pickMostCommon L = some p →
      ∃ L₁ L₂, L = L₁ ++ p :: L₂ ∧ ∀ q ∈ L₁, q.2 < p.2 := by
  intro L
  induction L with
  | nil => intro p h; simp [pickMostCommon] at h
  | cons a t ih =>
    intro p h
    rw [pickMostCommon] at h
    cases ht : pickMostCommon t with
    | none =>
      rw [ht] at h
      simp only [Option.some.injEq] at h
      refine ⟨[], t, ?_, ?_⟩
      · rw [List.nil_append, ← h]
      · intro q hq; simp at hq
    | some m =>
      rw [ht] at h
      simp only [Option.some.injEq] at h
      by_cases hgt : m.2 > a.2
      · rw [if_pos hgt] at h
        obtain ⟨t₁, t₂, hteq, hlt⟩ := ih m ht
        refine ⟨a :: t₁, t₂, ?_, ?_⟩
        · rw [← h, List.cons_append, ← hteq]
        · intro q hq
          rcases List.mem_cons.mp hq with hqa | hq₁
          · rw [hqa, ← h]; exact hgt
          · rw [← h]; exact hlt q hq₁
      · rw [if_neg hgt] at h
        refine ⟨[], t, ?_, ?_⟩
        · rw [List.nil_append, ← h]
        · intro q hq; simp at hq

/-- A cons decomposition of a mapped list comes from a decomposition of
the original list. -/
lemma map_split {α β : Type} (f : α → β) :
    ∀ (D : List α) (L₁ : List β) (p : β) (L₂ : List β),
      D.map f = L₁ ++ p :: L₂ →
      ∃ D₁ x D₂, D = D₁ ++ x :: D₂ ∧ D₁.map f = L₁ ∧ f x = p ∧ D₂.map f = L₂ := by
  intro D
  induction D with
  | nil =>
    intro L₁ p L₂ h
    rw [List.map_nil] at h
    exact absurd h.symm (List.append_ne_nil_of_right_ne_nil _ (List.cons_ne_nil _ _))
  | cons a t ih =>
    intro L₁ p L₂ h
    cases L₁ with
    | nil =>
      rw [List.map_cons, List.nil_append] at h
      injection h with hp ht
      exact ⟨[], a, t, rfl, rfl, hp, ht⟩
    | cons b L₁' =>
      rw [List.map_cons, List.cons_append] at h
      injection h with hb hrest
      obtain ⟨D₁, x, D₂, hdeq, h₁, h₂, h₃⟩ := ih L₁' p L₂ hrest
      refine ⟨a :: D₁, x, D₂, ?_, ?_, h₂, h₃⟩
      · rw [hdeq]; rfl
      · rw [List.map_cons, h₁, hb]

/-- First-occurrence indices of elements kept by a filter compare the same
way in the filtered and in the original list. -/
lemma idxOfV_filter_lt {α : Type} [DecidableEq α] (p : α → Bool) :
    ∀ (l : List α) (x y : α), x ∈ l.filter p → y ∈ l.filter p →
      idxOfV x (l.filter p) < idxOfV y (l.filter p) →
      idxOfV x l < idxOfV y l := by
  intro l
  induction l with
  | nil => intro x y hx _ _; simp at hx
  | cons a t ih =>
    intro x y hx hy hlt
    rw [List.filter_cons] at hx hy hlt
    by_cases hpa : p a = true
    · rw [if_pos hpa] at hx hy hlt
      by_cases hax : a = x
      · by_cases hay : a = y
        · exfalso
          rw [← hax, ← hay, idxOfV_cons_self] at hlt
          exact Nat.lt_irrefl 0 hlt
        · rw [← hax, idxOfV_cons_self, idxOfV_cons_ne y a t hay]
          exact Nat.succ_pos _
      · by_cases hay : a = y
        · exfalso
          rw [← hay, idxOfV_cons_self a (t.filter p)] at hlt
          exact Nat.not_lt_zero _ hlt
        · rw [idxOfV_cons_ne x a (t.filter p) hax,
            idxOfV_cons_ne y a (t.filter p) hay] at hlt
          have hlt' := Nat.lt_of_succ_lt_succ hlt
          have hx' : x ∈ t.filter p := by
            rcases List.mem_cons.mp hx with h | h
            · exact absurd h.symm hax
            · exact h
          have hy' : y ∈ t.filter p := by
            rcases List.mem_cons.mp hy with h | h
            · exact absurd h.symm hay
            · exact h
          rw [idxOfV_cons_ne x a t hax, idxOfV_cons_ne y a t hay]
          exact Nat.succ_lt_succ (ih x y hx' hy' hlt')
    · rw [if_neg hpa] at hx hy hlt
      have hax : a ≠ x := fun e => hpa (e ▸ (List.mem_filter.mp hx).2)
      have hay : a ≠ y := fun e => hpa (e ▸ (List.mem_filter.mp hy).2)
      rw [idxOfV_cons_ne x a t hax, idxOfV_cons_ne y a t hay]
      exact Nat.succ_lt_succ (ih x y hx hy hlt)

/-- If the dedup of a list places `w` strictly before `v`, then the first
occurrence of `w` in the list is strictly before the first occurrence of
`v`. -/
lemma dedupFuel_split_lt {α : Type} [DecidableEq α] :
    ∀ (n : Nat) (l D₁ D₂ : List α) (w v : α),
      l.length ≤ n → dedupFuel n l = D₁ ++ w :: D₂ → v ∈ D₂ →
      idxOfV w l < idxOfV v l := by
  intro n
  induction n with
  | zero =>
    intro l D₁ D₂ w v hlen heq _
    rw [List.length_eq_zero.mp (Nat.le_zero.mp hlen)] at heq
    rw [show dedupFuel 0 ([] : List α) = [] from rfl] at heq
    exact absurd heq.symm (List.append_ne_nil_of_right_ne_nil _ (List.cons_ne_nil _ _))
  | succ n ih =>
    intro l D₁ D₂ w v hlen heq hv
    cases l with
    | nil =>
      rw [show dedupFuel (n + 1) ([] : List α) = [] from rfl] at heq
      exact absurd heq.symm (List.append_ne_nil_of_right_ne_nil _ (List.cons_ne_nil _ _))
    | cons a t =>
      rw [show dedupFuel (n + 1) (a :: t) =
          a :: dedupFuel n (t.filter (fun x => x ≠ a)) from rfl] at heq
      have hlen' : (t.filter (fun x => x ≠ a)).length ≤ n :=
        le_trans (List.length_filter_le _ _) (Nat.le_of_succ_le_succ hlen)
      cases D₁ with
      | nil =>
        rw [List.nil_append] at heq
        injection heq with hwa hD₂
        have hvdd : v ∈ dedupFuel n (t.filter (fun x => x ≠ a)) := by
          rw [hD₂]; exact hv
        have hvft : v ∈ t.filter (fun x => x ≠ a) :=
          (mem_dedupFuel n _ hlen' v).mp hvdd
        have hva : v ≠ a := by
          have := (List.mem_filter.mp hvft).2
          simpa using this
        rw [hwa] at hva ⊢
        rw [idxOfV_cons_self w t, idxOfV_cons_ne v w t (fun e => hva e.symm)]
        exact Nat.succ_pos _
      | cons b D₁' =>
        rw [List.cons_append] at heq
        injection heq with hab hrest
        have hwdd : w ∈ dedupFuel n (t.filter (fun x => x ≠ a)) := by
          rw [hrest]; exact List.mem_append_right _ (List.mem_cons_self _ _)
        have hvdd : v ∈ dedupFuel n (t.filter (fun x => x ≠ a)) := by
          rw [hrest]; exact List.mem_append_right _ (List.mem_cons_of_mem _ hv)
        have hwft : w ∈ t.filter (fun x => x ≠ a) :=
          (mem_dedupFuel n _ hlen' w).mp hwdd
        have hvft : v ∈ t.filter (fun x => x ≠ a) :=
          (mem_dedupFuel n _ hlen' v).mp hvdd
        have hwa : w ≠ a := by simpa using (List.mem_filter.mp hwft).2
        have hva : v ≠ a := by simpa using (List.mem_filter.mp hvft).2
        have hlt := ih (t.filter (fun x => x ≠ a)) D₁' D₂ w v hlen' hrest hv
        have hlt' := idxOfV_filter_lt _ t w v hwft hvft hlt
        rw [idxOfV_cons_ne w a t (fun e => hwa e.symm),
          idxOfV_cons_ne v a t (fun e => hva e.symm)]
        exact Nat.succ_lt_succ hlt'


/-- Any value's multiplicity is bounded by the count selected by
`most_common(1)`. -/
lemma pickMostCommon_counts_max (items : List Value) (p : Value × Nat)
    (h : pickMostCommon (countsList items) = some p) (v : Value) :
    countOcc v items ≤ p.2 := by
  by_cases hv : v ∈ items
  · have hin : (v, countOcc v items) ∈ countsList items := by
      rw [countsList]
      exact List.mem_map.mpr ⟨v, (mem_dedupFirst items v).mpr hv, rfl⟩
    exact pickMostCommon_max _ p h _ hin
  · rw [countOcc_eq_zero v items hv]
    exact Nat.zero_le _

/-- Inversion of a successful most-frequent computation: the data and the
extracted values are non-empty and the selection picked the returned
pair. -/
lemma find_most_frequent_inv (data : List Record) (key : String) (w : Value)
    (c : Nat) (h : find_most_frequent_by_key data key = (some w, c)) :
    data ≠ [] ∧ extractItems data key ≠ [] ∧
      pickMostCommon (countsList (extractItems data key)) = some (w, c) := by
  rw [find_most_frequent_by_key] at h
  by_cases hd : data.isEmpty
  · rw [if_pos hd] at h
    exact absurd (congrArg Prod.fst h) (by simp)
  · rw [if_neg hd] at h
    by_cases hi : (extractItems data key).isEmpty
    · rw [if_pos hi] at h
      exact absurd (congrArg Prod.fst h) (by simp)
    · rw [if_neg hi] at h
      refine ⟨by simpa using hd, by simpa using hi, ?_⟩
      cases hp : pickMostCommon (countsList (extractItems data key)) with
      | none =>
        rw [hp] at h
        exact absurd (congrArg Prod.fst h) (by simp)
      | some p =>
        obtain ⟨p₁, p₂⟩ := p
        rw [hp] at h
        simp only [Prod.mk.injEq, Option.some.injEq] at h
        rw [h.1, h.2]

/-- C2: for every non-empty list of records, the count returned by
`find_most_frequent_by_key` equals or exceeds the number of occurrences of
every value of the field across the records. -/
theorem find_most_frequent_count_maximal (data : List Record) (key : String)
    (hne : data ≠ []) (v : Value) :
    countOcc v (extractItems data key) ≤
      (find_most_frequent_by_key data key).2 := by
  rw [find_most_frequent_by_key,
    if_neg (fun h => hne (List.isEmpty_iff.mp h))]
  by_cases hi : (extractItems data key).isEmpty
  · rw [if_pos hi, List.isEmpty_iff.mp hi]
    exact Nat.le_refl 0
  · rw [if_neg hi]
    cases hp : pickMostCommon (countsList (extractItems data key)) with
    | none =>
      exfalso
      have hnil : countsList (extractItems data key) = [] :=
        (pickMostCommon_eq_none_iff _).mp hp
      rw [countsList] at hnil
      exact (fun e => hi (List.isEmpty_iff.mpr e))
        ((dedupFirst_eq_nil _).mp (List.map_eq_nil_iff.mp hnil))
    | some p =>
      exact pickMostCommon_counts_max _ p hp v

/-- Witness for C2 at a concrete three-record dataset. -/
theorem find_most_frequent_count_maximal_witness :
    countOcc (vstr "b")
        (extractItems [[("k", vstr "a")], [("k", vstr "b")], [("k", vstr "a")]] "k") ≤
      (find_most_frequent_by_key
        [[("k", vstr "a")], [("k", vstr "b")], [("k", vstr "a")]] "k").2 :=
  find_most_frequent_count_maximal _ "k" (by decide) (vstr "b")

/-- C3: the value returned by `find_most_frequent_by_key` occurs, among
the values tied at the returned count, first in the record sequence: any
other value with that count has a strictly later first occurrence. -/
theorem find_most_frequent_tie_first (data : List Record) (key : String)
    (w : Value) (c : Nat)
    (h : find_most_frequent_by_key data key = (some w, c))
    (v : Value) (hv : v ∈ extractItems data key)
    (hc : countOcc v (extractItems data key) = c) (hvw : v ≠ w) :
    idxOfV w (extractItems data key) < idxOfV v (extractItems data key) := by
  obtain ⟨-, -, hp⟩ := find_most_frequent_inv data key w c h
  obtain ⟨L₁, L₂, hsplit, hlt⟩ := pickMostCommon_split _ _ hp
  rw [countsList] at hsplit
  obtain ⟨D₁, x, D₂, hdeq, hm₁, hmx, hm₂⟩ := map_split _ _ _ _ _ hsplit
  have hxw : x = w := congrArg Prod.fst hmx
  subst hxw
  have hvD : v ∈ dedupFirst (extractItems data key) := (mem_dedupFirst _ v).mpr hv
  rw [hdeq] at hvD
  rcases List.mem_append.mp hvD with hvD₁ | hvcons
  · exfalso
    have hmem : (v, countOcc v (extractItems data key)) ∈ L₁ := by
      rw [← hm₁]
      exact List.mem_map_of_mem _ hvD₁
    have hlt₂ := hlt _ hmem
    rw [hc] at hlt₂
    exact Nat.lt_irrefl c hlt₂
  · rcases List.mem_cons.mp hvcons with hvx | hvD₂
    · exact absurd hvx hvw
    · rw [dedupFirst] at hdeq
      exact dedupFuel_split_lt _ _ D₁ D₂ x v (Nat.le_refl _) hdeq hvD₂

/-- Witness for C3 at a concrete dataset with a two-way tie. -/
theorem find_most_frequent_tie_first_witness :
    idxOfV (vstr "a")
        (extractItems [[("k", vstr "a")], [("k", vstr "b")],
          [("k", vstr "a")], [("k", vstr "b")]] "k") <
      idxOfV (vstr "b")
        (extractItems [[("k", vstr "a")], [("k", vstr "b")],
          [("k", vstr "a")], [("k", vstr "b")]] "k") :=
  find_most_frequent_tie_first _ "k" (vstr "a") 2 (by decide) (vstr "b")
    (by decide) (by decide) (by decide)

/-- C4: `find_most_frequent_by_key` returns the no-data pair `(None, 0)`
exactly when the record list is empty or no record holds a present,
non-`None` value for the field (such records being skipped by the
extraction). -/
theorem find_most_frequent_none_iff (data : List Record) (key : String) :
    find_most_frequent_by_key data key = (none, 0) ↔
      (data = [] ∨ extractItems data key = []) := by
  constructor
  · intro h
    by_cases hd : data = []
    · exact Or.inl hd
    · by_cases hi : extractItems data key = []
      · exact Or.inr hi
      · exfalso
        rw [find_most_frequent_by_key,
          if_neg (fun e => hd (List.isEmpty_iff.mp e)),
          if_neg (fun e => hi (List.isEmpty_iff.mp e))] at h
        cases hp : pickMostCommon (countsList (extractItems data key)) with
        | none =>
          have hnil : countsList (extractItems data key) = [] :=
            (pickMostCommon_eq_none_iff _).mp hp
          rw [countsList] at hnil
          exact hi ((dedupFirst_eq_nil _).mp (List.map_eq_nil_iff.mp hnil))
        | some p =>
          rw [hp] at h
          exact absurd (congrArg Prod.fst h) (by simp)
  · intro h
    rcases h with h | h
    · rw [h]
      rfl
    · rw [find_most_frequent_by_key]
      by_cases hd : data.isEmpty
      · rw [if_pos hd]
      · rw [if_neg hd, if_pos (List.isEmpty_iff.mpr h)]

/-- C5: when the record list is empty, or its first record does not
contain the field name, the search returns the empty list even if later
records have the field. -/
theorem search_missing_key_empty (data : List Record) (k : String) (v : Value)
    (h : ∀ r, data.head? = some r → hasKeyB r k = false) :
    search_accidents data k v = [] := by
  cases data with
  | nil => rfl
  | cons r t =>
    have hk : hasKeyB r k = false := h r rfl
    simp [search_accidents, hk]

/-- Witness for C5: the single record has field `a` but not field `b`. -/
theorem search_missing_key_empty_witness :
    search_accidents [[("a", vint 1), ("b2", vint 2)]] "b" (vint 0) = [] :=
  search_missing_key_empty _ _ _ (fun r hr => by
    rw [← Option.some.inj hr]
    decide)


/-- C1 counterexample input: the first record has the field `k`, the
second record lacks it.  With the empty-string query the program returns
both records, while the sub-sequence of records whose value for the field
contains the query consists of the first record only. -/
theorem search_differs_from_claim_cex :
    hasKeyB [("k", vstr "a")] "k" = true ∧
      search_accidents [[("k", vstr "a")], []] "k" (vstr "") ≠
        searchSpec [[("k", vstr "a")], []] "k" (vstr "") := by
  constructor
  · decide
  · decide

/-- C1 amended: on a list whose first record contains the field, the
search returns exactly the order-preserving sub-sequence of records whose
value for the field — the empty string when a record lacks the field —
string-coerced and lower-cased, contains the lower-cased string form of
the query as a contiguous substring. -/
theorem search_accidents_amended (data : List Record) (k : String) (v : Value)
    (r₀ : Record) (t : List Record) (hd : data = r₀ :: t)
    (hk : hasKeyB r₀ k = true) :
    search_accidents data k v = data.filter (fun record =>
      decide ((lowerStr (pyStr v)).data <:+:
        (lowerStr (pyStr (rgetD record k (vstr "")))).data)) := by
  subst hd
  rw [search_cons_eq r₀ t k v hk]
  apply List.filter_congr
  intro r _
  rw [containsB_eq_decide]

/-- Witness for the amended C1 on a one-record dataset. -/
theorem search_accidents_amended_witness :
    search_accidents [[("k", vstr "a")]] "k" (vstr "A") =
      List.filter (fun record =>
        decide ((lowerStr (pyStr (vstr "A"))).data <:+:
          (lowerStr (pyStr (rgetD record "k" (vstr "")))).data))
        [[("k", vstr "a")]] :=
  search_accidents_amended _ "k" (vstr "A") _ _ rfl (by decide)


/-- C10: on a non-empty list whose first record contains the field, a
query whose string form is empty returns every record; and a record that
lacks the field is treated as holding the empty string, hence belongs to
the result exactly when the lower-cased string form of the query is
empty. -/
theorem search_empty_query_and_missing_field (data : List Record)
    (k : String) (v : Value) (r₀ : Record) (t : List Record)
    (hd : data = r₀ :: t) (hk : hasKeyB r₀ k = true) :
    (pyStr v = "" → search_accidents data k v = data) ∧
      (∀ r ∈ data, hasKeyB r k = false →
        (r ∈ search_accidents data k v ↔ lowerStr (pyStr v) = "")) := by
  subst hd
  rw [search_cons_eq r₀ t k v hk]
  constructor
  · intro hv
    rw [hv]
    apply List.filter_eq_self.mpr
    intro r _
    rw [show lowerStr "" = "" from rfl, containsB,
      show ("" : String).data = [] from rfl]
    exact containsAux_nil _
  · intro r hr hrk
    have hnone : rget r k = none := by
      cases hg : rget r k with
      | none => rfl
      | some w => rw [hasKeyB, hg] at hrk; simp at hrk
    constructor
    · intro hmem
      have hpred := (List.mem_filter.mp hmem).2
      rw [rgetD, hnone,
        show Option.getD (none : Option Value) (vstr "") = vstr "" from rfl,
        show lowerStr (pyStr (vstr "")) = "" from rfl, containsB,
        show ("" : String).data = [] from rfl, containsAux] at hpred
      rw [string_eq_empty_iff]
      exact List.isEmpty_iff.mp hpred
    · intro hv
      apply List.mem_filter.mpr
      refine ⟨hr, ?_⟩
      rw [hv, containsB, show ("" : String).data = [] from rfl]
      exact containsAux_nil _

/-- Witness for C10: empty query over a dataset whose second record lacks
the field. -/
theorem search_empty_query_and_missing_field_witness :
    search_accidents [[("k", vstr "a")], []] "k" (vstr "") =
        [[("k", vstr "a")], []] ∧
      (([] : Record) ∈ search_accidents [[("k", vstr "a")], []] "k" (vstr "") ↔
        lowerStr (pyStr (vstr "")) = "") :=
  ⟨(search_empty_query_and_missing_field _ "k" (vstr "") _ _ rfl (by decide)).1 rfl,
   (search_empty_query_and_missing_field _ "k" (vstr "") _ _ rfl
      (by decide)).2 [] (by decide) (by decide)⟩

/-- C7: on the fixed 8-record dataset, searching `city` for any casing of
the query `anytown` returns exactly records 1, 3, 6 and 8; the most
frequent city is `Anytown` with count 4, and the most frequent car is
`Toyota Camry` with count 3. -/
theorem dummy_analyses (s : String) (hs : lowerStr s = "anytown") :
    search_accidents dummyData "city" (vstr s) = [rec1, rec3, rec6, rec8] ∧
      find_most_frequent_by_key dummyData "city" = (some (vstr "Anytown"), 4) ∧
      find_most_frequent_by_key dummyData "car" =
        (some (vstr "Toyota Camry"), 3) := by
  refine ⟨?_, by decide, by decide⟩
  have hD : dummyData = rec1 :: [rec2, rec3, rec4, rec5, rec6, rec7, rec8] := rfl
  rw [hD, search_cons_eq _ _ _ _ (by decide)]
  simp only [pyStr]
  rw [hs]
  decide

/-- Witness for C7 with a mixed-case query. -/
theorem dummy_analyses_witness :
    search_accidents dummyData "city" (vstr "AnyTown") =
        [rec1, rec3, rec6, rec8] ∧
      find_most_frequent_by_key dummyData "city" = (some (vstr "Anytown"), 4) ∧
      find_most_frequent_by_key dummyData "car" =
        (some (vstr "Toyota Camry"), 3) :=
  dummy_analyses "AnyTown" (by decide)

/-- C6: serializing the fixed 8-record dataset with the indenting
serializer and parsing the text back yields the same JSON value, and that
value decodes to the original record sequence, field for field and in
order. -/
theorem dummy_roundtrip :
    jsonParse (dumps (encodeData dummyData)) = some (encodeData dummyData) ∧
      decodeTop (encodeData dummyData) = some dummyData :=
  ⟨rfl, rfl⟩

/-- C8: when the file content parses to a value that is not an array, the
run reports the shape condition, no analysis outcome is produced, and the
file is removed. -/
theorem shape_error_stops_analysis (content : String) (j : JValue)
    (hparse : jsonParse content = some j)
    (hshape : ∀ l, j ≠ JValue.jarr l) :
    read_and_analyze_json_file (some content) = (Outcome.shapeError, none) := by
  have hA : analyzeContent content = Outcome.shapeError := by
    rw [analyzeContent, hparse]
    cases j with
    | jarr l => exact absurd rfl (hshape l)
    | jnull => rfl
    | jint n => rfl
    | jstr s => rfl
    | jobj fs => rfl
  show (analyzeContent content, (none : Option String)) =
    (Outcome.shapeError, none)
  rw [hA]

/-- Witness for C8: the content `5` parses to a scalar, not an array. -/
theorem shape_error_stops_analysis_witness :
    jsonParse "5" = some (JValue.jint 5) ∧
      read_and_analyze_json_file (some "5") = (Outcome.shapeError, none) :=
  ⟨rfl, shape_error_stops_analysis "5" (JValue.jint 5) rfl
    (fun _ h => JValue.noConfusion h)⟩

/-- C9: after the generate-analyze-cleanup sequence the backing file does
not exist, whatever the initial file state and whether the write
succeeded: every path through the analysis removes the file, and the
early-return path has no file to leave behind. -/
theorem backing_file_removed (fs₀ : Option String) (writeOk : Bool) :
    (main_run fs₀ writeOk).2 = none := by
  rw [main_run, create_dummy_json]
  by_cases hw : writeOk
  · rw [if_pos hw]
    rfl
  · rw [if_neg hw]
    cases fs₀ with
    | none => rfl
    | some c => rfl

end Accident
